import Mathlib

/-!
Formal model of the aster-scheduler core: the cron engine, the job and run
stores, the executor, the scheduler tick and the worker execution path.
Time instants are Unix seconds (UTC) as `Nat`; Go statuses, which are string
types in `internal/types`, are modelled as `String` with named constants.
-/

namespace Aster

/-- Characters split on a separator character (keeping empty segments),
used to tokenize cron expressions. -/
def splitOnChar (c : Char) : List Char → List (List Char)
  | [] => [[]]
  | x :: xs =>
    match splitOnChar c xs with
    | [] => if x = c then [[], []] else [[x]]
    | r :: rs => if x = c then [] :: r :: rs else (x :: r) :: rs

/-- Decimal digits folded into a number; `none` on a non-digit. -/
def parseNatAux : List Char → Nat → Option Nat
  | [], acc => some acc
  | c :: cs, acc =>
    if c.isDigit then parseNatAux cs (acc * 10 + (c.toNat - 48)) else none

/-- Nonempty all-digit character list read as a number. -/
def parseNatChars : List Char → Option Nat
  | [] => none
  | c :: cs => parseNatAux (c :: cs) 0

/-- Whitespace-separated fields of an expression (like Go `strings.Fields`). -/
def fieldsOf (s : String) : List (List Char) :=
  (splitOnChar ' ' s.data).filter (fun f => f ≠ [])

/-- Parsed cron schedule: the allowed value set of every field, with star
flags for day-of-month and day-of-week recording whether the field was an
unrestricted `*` (needed for the either-matches day rule). -/
structure CronSchedule where
  seconds : List Nat
  minutes : List Nat
  hours   : List Nat
  dom     : List Nat
  months  : List Nat
  dow     : List Nat
  domStar : Bool
  dowStar : Bool
deriving DecidableEq, Repr

/-- Arithmetic progression `a, a+step, ...` up to `b`. -/
def rangeValues (a b step : Nat) : List Nat :=
  List.range' a ((b - a) / step + 1) step

/-- Modelled from the spec: one cron field body (`*`, `a`, or `a-b`) with a
step, expanded to its value list and validated against the field range
(section 4.1 of the spec; the concrete parser is the robfig/cron dependency,
which is not part of this repository's sources). -/
def parseBody (lo hi : Nat) (body : List Char) (step : Nat) : Option (List Nat) :=
  if body = ['*'] then some (rangeValues lo hi step)
  else
    match splitOnChar '-' body with
    | [a] =>
      match parseNatChars a with
      | some v => if lo ≤ v ∧ v ≤ hi ∧ step = 1 then some [v] else none
      | none => none
    | [a, b] =>
      match parseNatChars a, parseNatChars b with
      | some va, some vb =>
        if lo ≤ va ∧ va ≤ vb ∧ vb ≤ hi then some (rangeValues va vb step) else none
      | _, _ => none
    | _ => none

/-- Modelled from the spec: one cron field item, either a plain body or a
body with a `/step` suffix. -/
def parseItem (lo hi : Nat) (cs : List Char) : Option (List Nat) :=
  match splitOnChar '/' cs with
  | [body] => parseBody lo hi body 1
  | [body, stepCs] =>
    match parseNatChars stepCs with
    | some step => if 1 ≤ step then parseBody lo hi body step else none
    | none => none
  | _ => none

/-- Modelled from the spec: a comma-separated cron field expanded to the
union of its items' values. -/
def parseField (lo hi : Nat) (cs : List Char) : Option (List Nat) :=
  (splitOnChar ',' cs).foldr
    (fun it acc =>
      match parseItem lo hi it, acc with
      | some vs, some rest => some (vs ++ rest)
      | _, _ => none)
    (some [])

def fullSeconds : List Nat := rangeValues 0 59 1
def fullMinutes : List Nat := rangeValues 0 59 1
def fullHours : List Nat := rangeValues 0 23 1
def fullDom : List Nat := rangeValues 1 31 1
def fullMonths : List Nat := rangeValues 1 12 1
def fullDow : List Nat := rangeValues 0 6 1

/-- Modelled from the spec: the descriptor aliases of section 4.1. -/
def descriptorSchedule (d : List Char) : Option CronSchedule :=
  if d = "@yearly".data ∨ d = "@annually".data then
    some ⟨[0], [0], [0], [1], [1], fullDow, false, true⟩
  else if d = "@monthly".data then
    some ⟨[0], [0], [0], [1], fullMonths, fullDow, false, true⟩
  else if d = "@weekly".data then
    some ⟨[0], [0], [0], fullDom, fullMonths, [0], true, false⟩
  else if d = "@daily".data ∨ d = "@midnight".data then
    some ⟨[0], [0], [0], fullDom, fullMonths, fullDow, true, true⟩
  else if d = "@hourly".data then
    some ⟨[0], [0], fullHours, fullDom, fullMonths, fullDow, true, true⟩
  else none

/-- Modelled from the spec: the cron expression parser of section 4.1 —
POSIX five-field form with an optional leading seconds field and descriptor
aliases; wildcards, ranges, lists and steps; validation ranges minute 0-59,
hour 0-23, day-of-month 1-31, month 1-12, day-of-week 0-6.  (The program
delegates parsing to the robfig/cron v3 dependency, configured in
`internal/scheduler/cron.go` with SecondOptional and Descriptor.) -/
def parseCron (expr : String) : Option CronSchedule :=
  match fieldsOf expr with
  | [d] => if d.head? = some '@' then descriptorSchedule d else none
  | [mi, h, dm, mo, dw] =>
    (parseField 0 59 mi).bind fun mins =>
    (parseField 0 23 h).bind fun hrs =>
    (parseField 1 31 dm).bind fun dms =>
    (parseField 1 12 mo).bind fun mons =>
    (parseField 0 6 dw).bind fun dws =>
    some ⟨[0], mins, hrs, dms, mons, dws, dm = ['*'], dw = ['*']⟩
  | [se, mi, h, dm, mo, dw] =>
    (parseField 0 59 se).bind fun secs =>
    (parseField 0 59 mi).bind fun mins =>
    (parseField 0 23 h).bind fun hrs =>
    (parseField 1 31 dm).bind fun dms =>
    (parseField 1 12 mo).bind fun mons =>
    (parseField 0 6 dw).bind fun dws =>
    some ⟨secs, mins, hrs, dms, mons, dws, dm = ['*'], dw = ['*']⟩
  | _ => none

/-- Gregorian date (year, month, day) of a day count since 1970-01-01 UTC
(standard civil-from-days computation). -/
def civilFromDays (z : Nat) : Nat × Nat × Nat :=
  let z' := z + 719468
  let era := z' / 146097
  let doe := z' % 146097
  let yoe := (doe - doe / 1460 + doe / 36524 - doe / 146097) / 365
  let y := yoe + era * 400
  let doy := doe - (365 * yoe + yoe / 4 - yoe / 100)
  let mp := (5 * doy + 2) / 153
  let d := doy - (153 * mp + 2) / 5 + 1
  let m := if mp < 10 then mp + 3 else mp - 9
  (if m ≤ 2 then y + 1 else y, m, d)

/-- Modelled from the spec: whether an instant (Unix seconds, UTC) satisfies
a cron schedule; day-of-month and day-of-week follow the standard rule that
when both are constrained a firing matches if either matches. -/
def cronMatches (s : CronSchedule) (t : Nat) : Bool :=
  let days := t / 86400
  let ymd := civilFromDays days
  let dayOk :=
    if s.domStar || s.dowStar then
      s.dom.contains ymd.2.2 && s.dow.contains ((days + 4) % 7)
    else
      s.dom.contains ymd.2.2 || s.dow.contains ((days + 4) % 7)
  s.seconds.contains (t % 60) && s.minutes.contains (t / 60 % 60) &&
    s.hours.contains (t / 3600 % 24) && s.months.contains ymd.2.1 && dayOk

/-- Fuel-bounded linear search for the first matching instant at or after a
start instant. -/
def nextFromAux (s : CronSchedule) : Nat → Nat → Option Nat
  | 0, _ => none
  | fuel + 1, t => if cronMatches s t then some t else nextFromAux s fuel (t + 1)

/-- Five-year safety horizon of the next-fire search, in seconds. -/
def searchHorizon : Nat := 5 * 366 * 86400

/-- Modelled from the spec: the cron engine's next-fire computation — the
least instant satisfying the schedule strictly greater than the reference,
or `none` when no instant exists within the safety horizon (the robfig/cron
`Schedule.Next`, which returns the zero time in that case). -/
def scheduleNext (s : CronSchedule) (t : Nat) : Option Nat :=
  nextFromAux s searchHorizon (t + 1)

/-- Embedding of `CronParser.ParserAndNext` (internal/scheduler/cron.go):
parse the expression, compute the next run from the given time, and turn the
zero-time result into an error. -/
def ParserAndNext (cronExpr : String) (fromTime : Nat) : Except String Nat :=
  match parseCron cronExpr with
  | none => Except.error ("invalid cron expression " ++ cronExpr)
  | some schedule =>
    match scheduleNext schedule fromTime with
    | none => Except.error ("cron expression " ++ cronExpr ++ " will never trigger")
    | some nextRun => Except.ok nextRun

/-- Embedding of `CronParser.Validate` (internal/scheduler/cron.go). -/
def ValidateCron (cronExpr : String) : Except String Unit :=
  match parseCron cronExpr with
  | none => Except.error ("invalid cron expression " ++ cronExpr)
  | some _ => Except.ok ()

/-- Loop body of `CronParser.GetNextNRuns`: repeatedly take the next run,
feeding each result back as the new reference time, stopping early on a
zero result. -/
def getNextNRunsAux (schedule : CronSchedule) : Nat → Nat → List Nat
  | 0, _ => []
  | n + 1, currentTime =>
    match scheduleNext schedule currentTime with
    | none => []
    | some nextRun => nextRun :: getNextNRunsAux schedule n nextRun

/-- Embedding of `CronParser.GetNextNRuns` (internal/scheduler/cron.go). -/
def GetNextNRuns (cronExpr : String) (fromTime : Nat) (n : Nat) :
    Except String (List Nat) :=
  match parseCron cronExpr with
  | none => Except.error ("invalid cron expression " ++ cronExpr)
  | some schedule => Except.ok (getNextNRunsAux schedule n fromTime)

/-! Status constants of `internal/types` (Go string types). -/

def jobStatusActive : String := "active"
def jobStatusInactive : String := "inactive"
def jobStatusArchived : String := "archived"

def runStatusScheduled : String := "scheduled"
def runStatusClaimed : String := "claimed"
def runStatusRunning : String := "running"
def runStatusSucceeded : String := "succeeded"
def runStatusFailed : String := "failed"
def runStatusCancelled : String := "cancelled"
def runStatusTimedOut : String := "timed_out"

/-- Embedding of `types.Job`, doubling as the `jobs` table row.  Ids are
`Nat` in place of UUIDs (0 plays the role of `uuid.Nil`); `args` and `env`
are `Option` so that a Go nil slice or nil map is distinguishable from an
empty one; `timeout` is seconds, `none` for a nil `*time.Duration`. -/
structure Job where
  id : Nat
  name : String
  description : String
  cronExpr : String
  command : String
  args : Option (List String)
  env : Option (List (String × String))
  status : String
  maxRetries : Int
  timeout : Option Nat
  createdAt : Nat
  updatedAt : Nat
  nextRunAt : Option Nat
deriving DecidableEq, Repr

/-- Embedding of `types.Run`, doubling as the `runs` table row. -/
structure Run where
  id : Nat
  jobId : Nat
  status : String
  attemptNum : Int
  scheduledAt : Nat
  startedAt : Option Nat
  finishedAt : Option Nat
  output : String
  errorMsg : Option String
  createdAt : Nat
  updatedAt : Nat
deriving DecidableEq, Repr

/-- Decidable equality for `Except`, for evaluating store results in
witnesses. -/
instance {e a : Type} [DecidableEq e] [DecidableEq a] :
    DecidableEq (Except e a) := fun x y =>
  match x, y with
  | Except.ok u, Except.ok v =>
    match decEq u v with
    | isTrue h => isTrue (by rw [h])
    | isFalse h => isFalse (by intro hc; cases hc; exact h rfl)
  | Except.error u, Except.error v =>
    match decEq u v with
    | isTrue h => isTrue (by rw [h])
    | isFalse h => isFalse (by intro hc; cases hc; exact h rfl)
  | Except.ok _, Except.error _ => isFalse (by intro hc; cases hc)
  | Except.error _, Except.ok _ => isFalse (by intro hc; cases hc)

namespace RunStore

/-- Embedding of `RunStore.CreateRun`: the INSERT names columns id, job_id,
status, attempt_num, scheduled_at, started_at, finished_at, output and
error_msg, so created_at and updated_at take the database defaults NOW();
`freshId` plays the role of `uuid.New()` when the id is nil. -/
def CreateRun (run : Run) (freshId now : Nat) (db : List Run) : List Run :=
  let r := if run.id = 0 then { run with id := freshId } else run
  db ++ [{ r with createdAt := now, updatedAt := now }]

/-- Stable insertion by ascending `scheduled_at`, modelling the SQL
`ORDER BY scheduled_at ASC`. -/
def insertByScheduledAt (r : Run) : List Run → List Run
  | [] => [r]
  | x :: xs =>
    if x.scheduledAt ≤ r.scheduledAt then x :: insertByScheduledAt r xs
    else r :: x :: xs

/-- Runs sorted by ascending `scheduled_at`. -/
def sortByScheduledAt (l : List Run) : List Run :=
  l.foldr insertByScheduledAt []

/-- Embedding of `RunStore.GetRunsByStatus` (part of the run store sources):
a plain SELECT of the runs in the given status, ordered by scheduled_at
ascending and limited; it performs no UPDATE, takes no row locks, and leaves
every returned run in its stored status, so the store state is unchanged by
the call. -/
def GetRunsByStatus (status : String) (limit : Nat) (db : List Run) : List Run :=
  (sortByScheduledAt (db.filter (fun r => r.status == status))).take limit

/-- Embedding of `RunStore.MarkRunStarted`: UPDATE of status to running,
started_at and updated_at to NOW(), for the row with the given id; an error
when no row was affected. -/
def MarkRunStarted (runID : Nat) (now : Nat) (db : List Run) :
    Except String (List Run) :=
  if db.any (fun r => r.id == runID) then
    Except.ok (db.map (fun r =>
      if r.id == runID then
        { r with status := runStatusRunning, startedAt := some now,
                 updatedAt := now }
      else r))
  else Except.error "run not found"

/-- Embedding of `RunStore.MarkRunFinished`: UPDATE of status, finished_at,
output, error_msg and updated_at for the row with the given id. -/
def MarkRunFinished (runID : Nat) (status : String) (output : String)
    (errorMsg : Option String) (now : Nat) (db : List Run) :
    Except String (List Run) :=
  if db.any (fun r => r.id == runID) then
    Except.ok (db.map (fun r =>
      if r.id == runID then
        { r with status := status, finishedAt := some now, output := output,
                 errorMsg := errorMsg, updatedAt := now }
      else r))
  else Except.error "run not found"

end RunStore

namespace JobStore

/-- Embedding of `JobStore.CreateJob` (internal/db/store/jobs.go): the
INSERT names columns id, name, description, cron_expr, command, args, env,
status, max_retries and timeout only — created_at and updated_at take the
database defaults NOW(), and next_run_at takes its column default NULL.
The name-uniqueness constraint is not modelled (no claim depends on it). -/
def CreateJob (job : Job) (freshId now : Nat) (db : List Job) : List Job :=
  let j := if job.id = 0 then { job with id := freshId } else job
  db ++ [{ j with createdAt := now, updatedAt := now, nextRunAt := none }]

/-- Embedding of `JobStore.GetJob`: SELECT by id, not-found on no row. -/
def GetJob (id : Nat) (db : List Job) : Except String Job :=
  match db.find? (fun j => j.id == id) with
  | none => Except.error "job not found"
  | some j => Except.ok j

/-- Embedding of `JobStore.UpdateJob` (internal/db/store/jobs.go): the
UPDATE sets name, description, cron_expr, command, args, env, status,
max_retries, timeout and updated_at for the row with the given id — id,
created_at and next_run_at are not in the SET list. -/
def UpdateJob (job : Job) (now : Nat) (db : List Job) :
    Except String (List Job) :=
  if db.any (fun r => r.id == job.id) then
    Except.ok (db.map (fun r =>
      if r.id == job.id then
        { r with name := job.name, description := job.description,
                 cronExpr := job.cronExpr, command := job.command,
                 args := job.args, env := job.env, status := job.status,
                 maxRetries := job.maxRetries, timeout := job.timeout,
                 updatedAt := now }
      else r))
  else Except.error "job not found"

/-- Modelled from the spec: `GetActiveDue(now)` of section 4.2 — all jobs
with status active and next_run_at ≤ now.  The Go method
`JobStore.GetActiveJobsDue` called by the scheduler is not among the
provided repository sources. -/
def GetActiveJobsDue (now : Nat) (db : List Job) : List Job :=
  db.filter (fun j =>
    j.status == jobStatusActive &&
      match j.nextRunAt with
      | some t => decide (t ≤ now)
      | none => false)

/-- Modelled from the spec: `UpdateNextRun(id, instant)` of section 4.2 —
set the job's next_run_at to the given instant.  The Go method
`JobStore.UpdateJobNextRunAt` called by the scheduler is not among the
provided repository sources. -/
def UpdateJobNextRunAt (id : Nat) (t : Nat) (db : List Job) :
    Except String (List Job) :=
  if db.any (fun r => r.id == id) then
    Except.ok (db.map (fun r =>
      if r.id == id then { r with nextRunAt := some t } else r))
  else Except.error "job not found"

end JobStore

namespace Executor

/-- State of the command context observed after `cmd.CombinedOutput`
returns: Go's `context.DeadlineExceeded`, `context.Canceled`, or neither. -/
inductive CtxErr
  | noErr
  | deadlineExceeded
  | canceled
deriving DecidableEq, Repr

/-- Abstract observable outcome of the launched subprocess: the error (if
any) returned by `cmd.CombinedOutput` with its message, the command-context
state at that point, and the captured combined output. -/
structure ProcOutcome where
  cmdErr : Option String
  ctxErr : CtxErr
  output : String
deriving DecidableEq, Repr

/-- Embedding of `executor.ExecutionResult` (status, output, error — the
wall-clock start, end and duration fields are real time and not modelled). -/
structure ExecutionResult where
  status : String
  output : String
  error : Option String
deriving DecidableEq, Repr

/-- Rendering of the `*time.Duration` timeout as the Go `fmt` verb `%s`
prints it inside the timeout error message (the exact digits-and-units shape
of Go's duration formatting is immaterial to the claims; a nil pointer
prints as nil). -/
def timeoutRepr : Option Nat → String
  | none => "<nil>"
  | some d => toString d ++ "s"

/-- Embedding of the outcome classification in `Executor.Execute`
(internal/executor/executor.go, lines 74-88): on a command error, timed_out
when the command context ended with DeadlineExceeded, cancelled when it
ended with Canceled, otherwise failed with the underlying error embedded;
on a nil command error, succeeded with a nil result error. -/
def Execute (job : Job) (proc : ProcOutcome) : ExecutionResult :=
  match proc.cmdErr with
  | some e =>
    if proc.ctxErr = CtxErr.deadlineExceeded then
      { status := runStatusTimedOut, output := proc.output,
        error := some ("job timed out after " ++ timeoutRepr job.timeout) }
    else if proc.ctxErr = CtxErr.canceled then
      { status := runStatusCancelled, output := proc.output,
        error := some "job was cancelled" }
    else
      { status := runStatusFailed, output := proc.output,
        error := some ("command failed: " ++ e) }
  | none =>
    { status := runStatusSucceeded, output := proc.output, error := none }

/-- Embedding of the environment setup in `Executor.Execute` (lines 58-66):
`cmd.Env` is set to the job's env pairs only when the env map is non-empty;
otherwise `cmd.Env` stays nil, and Go's os/exec then has the subprocess
inherit the host process environment. -/
def subprocEnv (job : Job) (hostEnv : List String) : List String :=
  let pairs := job.env.getD []
  if pairs.length > 0 then pairs.map (fun kv => kv.1 ++ "=" ++ kv.2)
  else hostEnv

end Executor

namespace Handlers

/-- HTTP error response written by the handler helpers. -/
structure HTTPError where
  code : Nat
  message : String
deriving DecidableEq, Repr

/-- Embedding of the defaulting block of `JobHandler.CreateJob` (lines
65-77): an empty status becomes active, a zero max_retries becomes 3, nil
args and env become empty (each conditional touches a distinct field, so the
four sequential conditionals are this single record update). -/
def applyDefaults (req : Job) : Job :=
  { req with
    status := if req.status = "" then jobStatusActive else req.status,
    maxRetries := if req.maxRetries = 0 then 3 else req.maxRetries,
    args := if req.args = none then some [] else req.args,
    env := if req.env = none then some [] else req.env }

/-- Embedding of `JobHandler.CreateJob` (internal/api/handlers/jobs.go):
required-field validation, cron validation, defaulting of status (active),
max_retries (3 when zero — a JSON field that is omitted decodes to the zero
value), args and env, then the store insert; returns the in-memory job
echoed in the 201 response together with the new store state. -/
def CreateJob (req : Job) (freshId now : Nat) (db : List Job) :
    Except HTTPError (Job × List Job) :=
  if req.name = "" then Except.error ⟨400, "Job name is required"⟩
  else if req.cronExpr = "" then
    Except.error ⟨400, "Cron expression is required"⟩
  else if req.command = "" then Except.error ⟨400, "Command is required"⟩
  else if (parseCron req.cronExpr).isNone then
    Except.error ⟨400, "Invalid cron expression"⟩
  else
    let j := applyDefaults req
    let stored := if j.id = 0 then { j with id := freshId } else j
    Except.ok (stored, JobStore.CreateJob j freshId now db)

/-- Embedding of `JobHandler.UpdateJob` (internal/api/handlers/jobs.go):
look up the existing job (404 when absent), preserve its id and created_at
on the decoded body, validate the cron expression when changed, fall back to
the existing values for empty required fields, then the store update. -/
def UpdateJob (id : Nat) (req : Job) (now : Nat) (db : List Job) :
    Except HTTPError (Job × List Job) :=
  match db.find? (fun j => j.id == id) with
  | none => Except.error ⟨404, "Job not found"⟩
  | some existingJob =>
    let u0 := { req with id := existingJob.id,
                         createdAt := existingJob.createdAt }
    if u0.cronExpr ≠ "" ∧ u0.cronExpr ≠ existingJob.cronExpr ∧
        (parseCron u0.cronExpr).isNone then
      Except.error ⟨400, "Invalid cron expression"⟩
    else
      let u1 := if u0.name = "" then { u0 with name := existingJob.name } else u0
      let u2 := if u1.cronExpr = "" then { u1 with cronExpr := existingJob.cronExpr } else u1
      let u3 := if u2.command = "" then { u2 with command := existingJob.command } else u2
      let u4 := if u3.status = "" then { u3 with status := existingJob.status } else u3
      match JobStore.UpdateJob u4 now db with
      | Except.ok db' => Except.ok (u4, db')
      | Except.error _ => Except.error ⟨500, "Failed to update job"⟩

end Handlers

namespace Scheduler

/-- Shared persistent state the scheduler acts on: the jobs and runs tables. -/
structure SchedState where
  jobs : List Job
  runs : List Run
deriving DecidableEq, Repr

/-- Embedding of `Scheduler.scheduleJob` (internal/scheduler/scheduler.go):
the run-creation block is commented out in the source (a TODO placeholder
that only logs what it would do), so no run is inserted; the function
computes the next run time and updates the job's next_run_at, failing — and
leaving the state unchanged — when the cron expression does not parse. -/
def scheduleJob (job : Job) (scheduledAt : Nat) (st : SchedState) :
    Except String SchedState :=
  match ParserAndNext job.cronExpr scheduledAt with
  | Except.error e => Except.error ("failed to calculate next run time: " ++ e)
  | Except.ok nextRunAt =>
    match JobStore.UpdateJobNextRunAt job.id nextRunAt st.jobs with
    | Except.error e => Except.error ("failed to update next run time: " ++ e)
    | Except.ok jobs' => Except.ok { st with jobs := jobs' }

/-- One iteration of the due-jobs loop body of
`Scheduler.checkAndScheduleDueJobs`: a per-job failure is logged and leaves
the state as it was (`continue`). -/
def schedulerStep (now : Nat) (acc : SchedState) (job : Job) : SchedState :=
  match scheduleJob job now acc with
  | Except.ok st' => st'
  | Except.error _ => acc

/-- Embedding of `Scheduler.checkAndScheduleDueJobs`: fetch the due jobs
once, then process each in order; a per-job failure is logged and the loop
continues with the remaining jobs of the same tick, so the tick as a whole
always completes (in the source the function's only error return is a
due-jobs query failure, which the pure store model cannot produce, and the
scheduler's `Run` loop keeps ticking even then). -/
def checkAndScheduleDueJobs (now : Nat) (st : SchedState) : SchedState :=
  (JobStore.GetActiveJobsDue now st.jobs).foldl (schedulerStep now) st

end Scheduler

/-- Position of a run status along the forward lifecycle diagram of the
spec's section 3 (`scheduled → claimed → running → terminal`); the four
terminal states share the final rank.  Only applied to the seven declared
statuses. -/
def statusRank (s : String) : Nat :=
  if s = runStatusScheduled then 0
  else if s = runStatusClaimed then 1
  else if s = runStatusRunning then 2
  else 3

namespace Worker

/-- Embedding of `Worker.executeRun` (internal/worker/worker.go): load the
owning job, mark the run started (status running), execute, and mark the run
finished with the executor result's status, output and error; a failure of
the final mark is logged but not propagated.  The subprocess outcome is
supplied as an abstract `ProcOutcome`. -/
def executeRun (run : Run) (proc : Executor.ProcOutcome) (now1 now2 : Nat)
    (jobs : List Job) (runsDb : List Run) : Except String (List Run) :=
  match jobs.find? (fun j => j.id == run.jobId) with
  | none => Except.error "failed to get job for run"
  | some job =>
    match RunStore.MarkRunStarted run.id now1 runsDb with
    | Except.error e => Except.error ("failed to mark run as started: " ++ e)
    | Except.ok db1 =>
      let result := Executor.Execute job proc
      match RunStore.MarkRunFinished run.id result.status result.output
          result.error now2 db1 with
      | Except.ok db2 => Except.ok db2
      | Except.error _ => Except.ok db1

end Worker

/-- First stored job with the given id (SELECT ... WHERE id = $1). -/
def findJob (i : Nat) (db : List Job) : Option Job :=
  db.find? (fun j => j.id == i)

/-! Concrete sample values used by witnesses and counterexamples. -/

/-- A pending run as the scheduler loop would create it. -/
def sampleRun : Run :=
  { id := 1, jobId := 1, status := runStatusScheduled, attemptNum := 1,
    scheduledAt := 100, startedAt := none, finishedAt := none, output := "",
    errorMsg := none, createdAt := 100, updatedAt := 100 }

/-- The sample run after `MarkRunStarted` at instant 50. -/
def sampleRunStarted : Run :=
  { sampleRun with status := runStatusRunning, startedAt := some 50,
                   updatedAt := 50 }

/-- The sample run after a successful finish at instant 60. -/
def sampleRunFinished : Run :=
  { sampleRunStarted with status := runStatusSucceeded, finishedAt := some 60,
                          output := "x", updatedAt := 60 }

/-- A stored active job owning the sample run. -/
def sampleJob : Job :=
  { id := 1, name := "m", description := "", cronExpr := "* * * * *",
    command := "echo", args := some ["x"], env := some [],
    status := jobStatusActive, maxRetries := 3, timeout := none,
    createdAt := 0, updatedAt := 0, nextRunAt := some 0 }

/-- A job whose env mapping has one entry. -/
def envJob : Job := { sampleJob with env := some [("A", "1")] }

/-- A job whose env mapping is empty. -/
def envlessJob : Job := { sampleJob with env := some [] }

/-- A create request as decoded from a minimal JSON body: only name,
cron_expr and command supplied; everything else is the Go zero value. -/
def sampleReq : Job :=
  { id := 0, name := "m", description := "", cronExpr := "* * * * *",
    command := "echo", args := none, env := none, status := "",
    maxRetries := 0, timeout := none, createdAt := 0, updatedAt := 0,
    nextRunAt := none }

/-- The response job of creating `sampleReq` with fresh id 7. -/
def sampleRespJob : Job := { Handlers.applyDefaults sampleReq with id := 7 }

/-- The stored row of creating `sampleReq` with fresh id 7 at instant 100. -/
def sampleStoredRow : Job :=
  { Handlers.applyDefaults sampleReq with id := 7, createdAt := 100,
                                           updatedAt := 100, nextRunAt := none }

/-- The sample job with a changed name and cron_expr, as an update body. -/
def sampleJobUpdated : Job :=
  { sampleJob with name := "m2", cronExpr := "0 0 * * *" }

/-- The stored row after updating the sample job at instant 200. -/
def sampleJobUpdatedRow : Job := { sampleJobUpdated with updatedAt := 200 }

/-- An active due job whose cron expression does not parse. -/
def badJob : Job :=
  { sampleJob with id := 1, name := "bad", cronExpr := "not-a-cron",
                   nextRunAt := some 0 }

/-- An active due job with a valid every-minute cron expression. -/
def goodJob : Job :=
  { sampleJob with id := 2, name := "good", nextRunAt := some 0 }

/-! Helper lemmas. -/

theorem mem_insertByScheduledAt {a r : Run} {l : List Run} :
    a ∈ RunStore.insertByScheduledAt r l ↔ a = r ∨ a ∈ l := by
  induction l with
  | nil => simp [RunStore.insertByScheduledAt]
  | cons x xs ih =>
    by_cases h : x.scheduledAt ≤ r.scheduledAt
    · simp [RunStore.insertByScheduledAt, h, ih]
      tauto
    · simp [RunStore.insertByScheduledAt, h]

theorem mem_sortByScheduledAt {a : Run} {l : List Run} :
    a ∈ RunStore.sortByScheduledAt l ↔ a ∈ l := by
  induction l with
  | nil => simp [RunStore.sortByScheduledAt]
  | cons x xs ih =>
    simp [RunStore.sortByScheduledAt] at ih ⊢
    rw [mem_insertByScheduledAt]
    simp [ih]

theorem jobStoreUpdate_frame {job : Job} {now : Nat} {db db2 : List Job}
    (h : JobStore.UpdateJob job now db = Except.ok db2) :
    db2.map (fun r => (r.id, r.createdAt, r.nextRunAt)) =
      db.map (fun r => (r.id, r.createdAt, r.nextRunAt)) := by
  unfold JobStore.UpdateJob at h
  split at h
  · cases h
    rw [List.map_map]
    refine List.map_congr_left ?_
    intro r _
    by_cases hid : r.id = job.id <;> simp [hid]
  · cases h

theorem getRunsByStatus_mem {status : String} {limit : Nat} {db : List Run}
    {r : Run} (hr : r ∈ RunStore.GetRunsByStatus status limit db) :
    r ∈ db ∧ r.status = status := by
  unfold RunStore.GetRunsByStatus at hr
  have h1 := List.take_subset _ _ hr
  rw [mem_sortByScheduledAt, List.mem_filter] at h1
  exact ⟨h1.1, by simpa using h1.2⟩

theorem statusRank_execute (job : Job) (proc : Executor.ProcOutcome) :
    statusRank (Executor.Execute job proc).status = 3 := by
  obtain ⟨ce, cx, out⟩ := proc
  cases ce with
  | none =>
    simp [Executor.Execute, statusRank, runStatusSucceeded,
      runStatusScheduled, runStatusClaimed, runStatusRunning]
  | some e =>
    cases cx <;> simp [Executor.Execute, statusRank, runStatusTimedOut,
      runStatusCancelled, runStatusFailed, runStatusScheduled,
      runStatusClaimed, runStatusRunning]

theorem nextFromAux_le {s : CronSchedule} :
    ∀ fuel start r, nextFromAux s fuel start = some r → start ≤ r := by
  intro fuel
  induction fuel with
  | zero => intro start r h; simp [nextFromAux] at h
  | succ f ih =>
    intro start r h
    by_cases hm : cronMatches s start
    · simp [nextFromAux, hm] at h; omega
    · simp [nextFromAux, hm] at h
      have := ih (start + 1) r h
      omega

theorem scheduleNext_gt {s : CronSchedule} {t r : Nat}
    (h : scheduleNext s t = some r) : t < r := by
  have := nextFromAux_le searchHorizon (t + 1) r h
  omega

theorem getNextNRunsAux_chain (s : CronSchedule) :
    ∀ n cur, List.Chain' (· < ·) (cur :: getNextNRunsAux s n cur) := by
  intro n
  induction n with
  | zero => intro cur; simp [getNextNRunsAux]
  | succ m ih =>
    intro cur
    unfold getNextNRunsAux
    cases h : scheduleNext s cur with
    | none => simp
    | some r =>
      simp only [List.chain'_cons]
      exact ⟨scheduleNext_gt h, ih r⟩

theorem findJob_of_nodup {db : List Job} {j : Job}
    (hnd : (db.map Job.id).Nodup) (hj : j ∈ db) :
    findJob j.id db = some j := by
  induction db with
  | nil => cases hj
  | cons x xs ih =>
    rw [List.map_cons, List.nodup_cons] at hnd
    rcases List.mem_cons.mp hj with rfl | hmem
    · simp [findJob]
    · have hne : x.id ≠ j.id := by
        intro he
        exact hnd.1 (by rw [he]; exact List.mem_map_of_mem Job.id hmem)
      simp only [findJob, List.find?_cons]
      rw [show (x.id == j.id) = false from beq_eq_false_iff_ne.mpr hne]
      simpa [findJob] using ih hnd.2 hmem

theorem findJob_map_set (i jid v : Nat) (db : List Job) :
    findJob i (db.map (fun r =>
        if r.id == jid then { r with nextRunAt := some v } else r)) =
      (findJob i db).map (fun r =>
        if r.id == jid then { r with nextRunAt := some v } else r) := by
  induction db with
  | nil => rfl
  | cons x xs ih =>
    have hpid : (if x.id == jid then
        ({ x with nextRunAt := some v } : Job) else x).id = x.id := by
      by_cases h : x.id == jid <;> simp [h]
    simp only [findJob, List.map_cons, List.find?_cons] at ih ⊢
    rw [hpid]
    by_cases hi : x.id == i
    · rw [hi]
      simp
    · rw [show (x.id == i) = false from by simpa using hi]
      simpa using ih

theorem updateJobNextRunAt_of_find {id v : Nat} {db : List Job} {j : Job}
    (h : findJob id db = some j) :
    JobStore.UpdateJobNextRunAt id v db = Except.ok (db.map (fun r =>
      if r.id == id then { r with nextRunAt := some v } else r)) := by
  unfold JobStore.UpdateJobNextRunAt
  unfold findJob at h
  have hmem : j ∈ db := List.mem_of_find?_eq_some h
  have hp : (j.id == id) = true := by simpa using List.find?_some h
  rw [if_pos (List.any_eq_true.mpr ⟨j, hmem, hp⟩)]

theorem scheduleJob_ok_shape {job : Job} {now : Nat}
    {st st2 : Scheduler.SchedState}
    (h : Scheduler.scheduleJob job now st = Except.ok st2) :
    ∃ v, ParserAndNext job.cronExpr now = Except.ok v ∧
      st2.jobs = st.jobs.map (fun r =>
        if r.id == job.id then { r with nextRunAt := some v } else r) ∧
      st2.runs = st.runs := by
  unfold Scheduler.scheduleJob at h
  cases hp : ParserAndNext job.cronExpr now with
  | error e => simp [hp] at h
  | ok v =>
    simp only [hp] at h
    cases hu : JobStore.UpdateJobNextRunAt job.id v st.jobs with
    | error e => simp [hu] at h
    | ok jobs2 =>
      simp only [hu] at h
      cases h
      refine ⟨v, rfl, ?_, rfl⟩
      unfold JobStore.UpdateJobNextRunAt at hu
      split at hu
      · cases hu; rfl
      · cases hu

theorem schedulerFold_preserve {now i : Nat} :
    ∀ (due : List Job) (st : Scheduler.SchedState),
      (∀ k ∈ due, k.id ≠ i ∨ parseCron k.cronExpr = none) →
      findJob i (due.foldl (Scheduler.schedulerStep now) st).jobs =
        findJob i st.jobs := by
  intro due
  induction due with
  | nil => intro st _; rfl
  | cons m ms ih =>
    intro st hcond
    rw [List.foldl_cons]
    have hrest : ∀ k ∈ ms, k.id ≠ i ∨ parseCron k.cronExpr = none :=
      fun k hk => hcond k (List.mem_cons_of_mem m hk)
    rw [ih (Scheduler.schedulerStep now st m) hrest]
    unfold Scheduler.schedulerStep
    cases h : Scheduler.scheduleJob m now st with
    | error e => rfl
    | ok st2 =>
      obtain ⟨v, hv, hjobs, _⟩ := scheduleJob_ok_shape h
      have hmid : m.id ≠ i := by
        rcases hcond m (List.mem_cons_self m ms) with hne | hbad
        · exact hne
        · exfalso
          unfold ParserAndNext at hv
          rw [hbad] at hv
          cases hv
      rw [hjobs, findJob_map_set]
      cases hf : findJob i st.jobs with
      | none => rfl
      | some r =>
        unfold findJob at hf
        have hri : r.id = i := by simpa using List.find?_some hf
        have hrne : r.id ≠ m.id := by
          rw [hri]
          exact fun he => hmid he.symm
        simp [hrne]

theorem schedulerFold_applies {now : Nat} :
    ∀ (due : List Job) (st : Scheduler.SchedState) (k : Job) (v : Nat),
      (due.map Job.id).Nodup → k ∈ due →
      ParserAndNext k.cronExpr now = Except.ok v →
      findJob k.id st.jobs = some k →
      findJob k.id (due.foldl (Scheduler.schedulerStep now) st).jobs =
        some { k with nextRunAt := some v } := by
  intro due
  induction due with
  | nil => intro st k v _ hk; cases hk
  | cons m ms ih =>
    intro st k v hnd hk hv hf
    rw [List.map_cons, List.nodup_cons] at hnd
    rw [List.foldl_cons]
    rcases List.mem_cons.mp hk with rfl | hmem
    · have hstep : Scheduler.schedulerStep now st k =
          ⟨st.jobs.map (fun r =>
            if r.id == k.id then { r with nextRunAt := some v } else r),
           st.runs⟩ := by
        unfold Scheduler.schedulerStep Scheduler.scheduleJob
        simp only [hv, updateJobNextRunAt_of_find hf]
      rw [hstep]
      have hpres := @schedulerFold_preserve now k.id ms
        ⟨st.jobs.map (fun r =>
            if r.id == k.id then { r with nextRunAt := some v } else r),
         st.runs⟩
        (fun x hx => Or.inl (fun he =>
          hnd.1 (by rw [← he]; exact List.mem_map_of_mem Job.id hx)))
      rw [hpres]
      rw [findJob_map_set, hf]
      simp
    · have hmk : m.id ≠ k.id := by
        intro he
        exact hnd.1 (by rw [he]; exact List.mem_map_of_mem Job.id hmem)
      have hf2 : findJob k.id (Scheduler.schedulerStep now st m).jobs =
          some k := by
        unfold Scheduler.schedulerStep
        cases h : Scheduler.scheduleJob m now st with
        | error e => exact hf
        | ok st2 =>
          obtain ⟨w, hw, hjobs, _⟩ := scheduleJob_ok_shape h
          rw [hjobs, findJob_map_set, hf]
          have hkm : k.id ≠ m.id := fun he => hmk he.symm
          simp [hkm]
      exact ih (Scheduler.schedulerStep now st m) k v hnd.2 hmem hv hf2

theorem nodup_ids_filter (p : Job → Bool) :
    ∀ jobs : List Job, (jobs.map Job.id).Nodup →
      ((jobs.filter p).map Job.id).Nodup := by
  intro jobs
  induction jobs with
  | nil => intro _; simp
  | cons x xs ih =>
    intro h
    rw [List.map_cons, List.nodup_cons] at h
    by_cases hp : p x
    · rw [List.filter_cons_of_pos hp, List.map_cons, List.nodup_cons]
      refine ⟨?_, ih h.2⟩
      intro hmem
      obtain ⟨y, hy, hyid⟩ := List.mem_map.mp hmem
      refine h.1 ?_
      rw [← hyid]
      exact List.mem_map_of_mem Job.id ((List.mem_filter.mp hy).1)
    · rw [List.filter_cons_of_neg hp]
      exact ih h.2

/-! Claims. -/

/-- C7: for every parseable cron expression and reference instant,
`ParserAndNext` returns an instant strictly greater than the reference, and
`GetNextNRuns`, which iterates the next-fire computation feeding each result
back as the new reference, produces a strictly increasing sequence of firing
instants. -/
theorem c7_next_strictly_increasing :
    (∀ expr t r, ParserAndNext expr t = Except.ok r → t < r) ∧
    (∀ expr t n l, GetNextNRuns expr t n = Except.ok l →
      List.Chain' (· < ·) (t :: l)) := by
  constructor
  · intro expr t r h
    unfold ParserAndNext at h
    cases hp : parseCron expr with
    | none => simp [hp] at h
    | some sched =>
      simp only [hp] at h
      cases hn : scheduleNext sched t with
      | none => simp [hn] at h
      | some v =>
        simp [hn] at h
        subst h
        exact scheduleNext_gt hn
  · intro expr t n l h
    unfold GetNextNRuns at h
    cases hp : parseCron expr with
    | none => simp [hp] at h
    | some sched =>
      simp [hp] at h
      subst h
      exact getNextNRunsAux_chain sched n t

set_option maxRecDepth 100000 in
/-- Witness for C7 at the spec's own example `*/5 * * * *` from
2024-01-01T12:00:00Z (Unix 1704110400): the single next fire is 12:05:00 and
three iterated fires are 12:05, 12:10, 12:15, strictly increasing. -/
theorem c7_witness :
    ParserAndNext "*/5 * * * *" 1704110400 = Except.ok 1704110700 ∧
    1704110400 < 1704110700 ∧
    GetNextNRuns "*/5 * * * *" 1704110400 3 =
      Except.ok [1704110700, 1704111000, 1704111300] ∧
    List.Chain' (· < ·)
      (1704110400 :: [1704110700, 1704111000, 1704111300]) := by
  have h1 : ParserAndNext "*/5 * * * *" 1704110400 = Except.ok 1704110700 := by
    rfl
  have h2 : GetNextNRuns "*/5 * * * *" 1704110400 3 =
      Except.ok [1704110700, 1704111000, 1704111300] := by
    rfl
  exact ⟨h1, c7_next_strictly_increasing.1 _ _ _ h1, h2,
    c7_next_strictly_increasing.2 _ _ _ _ h2⟩

/-- C2: refuted — on a scheduler tick the runs table is unchanged, whatever
the state: `Scheduler.scheduleJob` has its run-creation block commented out
in the source (a TODO that only logs what it would do), so no run with
status scheduled is ever created, even though the job's next_run_at is
advanced.  The repository's own README (Phase 2) documents the insert into
the runs table, so this is a divergence of the code from its docs. -/
theorem c2_no_run_created (now : Nat) (st : Scheduler.SchedState) :
    (Scheduler.checkAndScheduleDueJobs now st).runs = st.runs := by
  unfold Scheduler.checkAndScheduleDueJobs
  generalize JobStore.GetActiveJobsDue now st.jobs = due
  induction due generalizing st with
  | nil => rfl
  | cons j js ih =>
    rw [List.foldl_cons]
    have hstep : (Scheduler.schedulerStep now st j).runs = st.runs := by
      unfold Scheduler.schedulerStep
      cases h : Scheduler.scheduleJob j now st with
      | error e => rfl
      | ok st2 =>
        unfold Scheduler.scheduleJob at h
        cases hp : ParserAndNext j.cronExpr now with
        | error e => simp [hp] at h
        | ok v =>
          simp [hp] at h
          cases hu : JobStore.UpdateJobNextRunAt j.id v st.jobs with
          | error e => simp [hu] at h
          | ok jobs2 => simp [hu] at h; rw [← h]
    rw [ih (Scheduler.schedulerStep now st j), hstep]

/-- C1 counterexample: the run-store operation the worker uses to obtain
scheduled runs (`GetRunsByStatus`) does not transition the selected run to
claimed — the returned run is still in status scheduled — and, the store
state being untouched by the read, a concurrent second caller of the same
operation receives the very same run, so the two result sets intersect. -/
theorem c1_counterexample :
    RunStore.GetRunsByStatus runStatusScheduled 1 [sampleRun] = [sampleRun] ∧
    sampleRun.status = runStatusScheduled ∧
    sampleRun.status ≠ runStatusClaimed ∧
    (RunStore.GetRunsByStatus runStatusScheduled 1 [sampleRun]).inter
      (RunStore.GetRunsByStatus runStatusScheduled 1 [sampleRun]) =
      [sampleRun] := by
  decide

/-- C1 (amended): the run-store operation the worker uses to obtain runs in
status scheduled is a plain read — every returned run is a stored row still
in the queried status, in particular never transitioned to claimed, and the
store state is left unchanged, so two callers reading the same state
receive identical (overlapping, not disjoint) run sets. -/
theorem c1_claim_read_only (limit : Nat) (db : List Run) :
    ∀ r ∈ RunStore.GetRunsByStatus runStatusScheduled limit db,
      r ∈ db ∧ r.status = runStatusScheduled ∧
        r.status ≠ runStatusClaimed := by
  intro r hr
  have h := getRunsByStatus_mem hr
  refine ⟨h.1, h.2, ?_⟩
  rw [h.2]
  decide

/-- Witness for the amended C1 at the sample store state. -/
theorem c1_claim_read_only_witness :
    sampleRun ∈ [sampleRun] ∧ sampleRun.status = runStatusScheduled ∧
      sampleRun.status ≠ runStatusClaimed :=
  c1_claim_read_only 1 [sampleRun] sampleRun (by decide)

/-- C4 counterexample: the worker's first store write on a fetched run,
`MarkRunStarted`, carries a run that is in status scheduled — obtained from
`GetRunsByStatus scheduled` — directly to running: the run reaches running
from scheduled, never passing through claimed, refuting the claimed
lifecycle step. -/
theorem c4_counterexample :
    sampleRun ∈ RunStore.GetRunsByStatus runStatusScheduled 1 [sampleRun] ∧
    sampleRun.status = runStatusScheduled ∧
    sampleRun.status ≠ runStatusClaimed ∧
    RunStore.MarkRunStarted sampleRun.id 50 [sampleRun] =
      Except.ok [sampleRunStarted] ∧
    sampleRunStarted.status = runStatusRunning := by
  decide

/-- C4 (amended): along the worker's actual store-operation sequence on a
run (`executeRun`: mark started, execute, mark finished), the run moves
strictly forward through scheduled → running → a terminal state; the
claimed stage of the spec's diagram is skipped, since the worker fetches
runs in status scheduled and marks them running directly. -/
theorem c4_forward_lifecycle (db : List Run) (limit : Nat) (run : Run)
    (job : Job) (proc : Executor.ProcOutcome) (now1 now2 : Nat)
    (db1 db2 : List Run)
    (hfetch : run ∈ RunStore.GetRunsByStatus runStatusScheduled limit db)
    (hstart : RunStore.MarkRunStarted run.id now1 db = Except.ok db1)
    (hfin : RunStore.MarkRunFinished run.id (Executor.Execute job proc).status
      (Executor.Execute job proc).output (Executor.Execute job proc).error
      now2 db1 = Except.ok db2) :
    run.status = runStatusScheduled ∧
    statusRank run.status < statusRank runStatusRunning ∧
    (∀ x ∈ db1, x.id = run.id → x.status = runStatusRunning) ∧
    (∀ x ∈ db2, x.id = run.id →
      x.status = (Executor.Execute job proc).status) ∧
    statusRank runStatusRunning < statusRank (Executor.Execute job proc).status := by
  have hsched := (getRunsByStatus_mem hfetch).2
  refine ⟨hsched, ?_, ?_, ?_, ?_⟩
  · rw [hsched]; decide
  · intro x hx hxid
    unfold RunStore.MarkRunStarted at hstart
    split at hstart
    · cases hstart
      obtain ⟨y, hy, hyx⟩ := List.mem_map.mp hx
      by_cases hid : y.id == run.id
      · rw [← hyx]; simp [hid]
      · exfalso
        rw [← hyx] at hxid
        simp [hid] at hxid
        exact absurd hxid (by simpa using hid)
    · cases hstart
  · intro x hx hxid
    unfold RunStore.MarkRunFinished at hfin
    split at hfin
    · cases hfin
      obtain ⟨y, hy, hyx⟩ := List.mem_map.mp hx
      by_cases hid : y.id == run.id
      · rw [← hyx]; simp [hid]
      · exfalso
        rw [← hyx] at hxid
        simp [hid] at hxid
        exact absurd hxid (by simpa using hid)
    · cases hfin
  · rw [statusRank_execute]; decide

/-- Witness for the amended C4: the sample scheduled run executed
successfully moves scheduled → running → succeeded. -/
theorem c4_forward_lifecycle_witness :
    sampleRun.status = runStatusScheduled ∧
    statusRank sampleRun.status < statusRank runStatusRunning ∧
    (∀ x ∈ [sampleRunStarted], x.id = sampleRun.id →
      x.status = runStatusRunning) ∧
    (∀ x ∈ [sampleRunFinished], x.id = sampleRun.id →
      x.status = (Executor.Execute sampleJob ⟨none, Executor.CtxErr.noErr, "x"⟩).status) ∧
    statusRank runStatusRunning <
      statusRank (Executor.Execute sampleJob ⟨none, Executor.CtxErr.noErr, "x"⟩).status :=
  c4_forward_lifecycle [sampleRun] 1 sampleRun sampleJob
    ⟨none, Executor.CtxErr.noErr, "x"⟩ 50 60 [sampleRunStarted]
    [sampleRunFinished] (by decide) (by decide) (by decide)


/-- C5: classification of the executor's result — timed_out with the
timeout message when the command context ended with DeadlineExceeded,
cancelled with "job was cancelled" on Canceled, succeeded exactly when the
process exited without error, otherwise failed with the underlying error
embedded; and the result error is nil if and only if the status is
succeeded. -/
theorem c5_outcome_classification (job : Job) (proc : Executor.ProcOutcome) :
    (∀ e, proc.cmdErr = some e →
      proc.ctxErr = Executor.CtxErr.deadlineExceeded →
      (Executor.Execute job proc).status = runStatusTimedOut ∧
      (Executor.Execute job proc).error =
        some ("job timed out after " ++ Executor.timeoutRepr job.timeout)) ∧
    (∀ e, proc.cmdErr = some e →
      proc.ctxErr = Executor.CtxErr.canceled →
      (Executor.Execute job proc).status = runStatusCancelled ∧
      (Executor.Execute job proc).error = some "job was cancelled") ∧
    (∀ e, proc.cmdErr = some e →
      proc.ctxErr ≠ Executor.CtxErr.deadlineExceeded →
      proc.ctxErr ≠ Executor.CtxErr.canceled →
      (Executor.Execute job proc).status = runStatusFailed ∧
      (Executor.Execute job proc).error = some ("command failed: " ++ e)) ∧
    ((Executor.Execute job proc).status = runStatusSucceeded ↔
      proc.cmdErr = none) ∧
    ((Executor.Execute job proc).error = none ↔
      (Executor.Execute job proc).status = runStatusSucceeded) := by
  obtain ⟨ce, cx, out⟩ := proc
  cases ce with
  | none =>
    cases cx <;>
      simp [Executor.Execute, runStatusSucceeded, runStatusTimedOut,
        runStatusCancelled, runStatusFailed]
  | some e =>
    cases cx <;>
      simp [Executor.Execute, runStatusSucceeded, runStatusTimedOut,
        runStatusCancelled, runStatusFailed]

/-- Witness for C5: a process killed by the elapsed timeout is classified
timed_out with the timeout message, and its error is not nil. -/
theorem c5_outcome_classification_witness :
    (Executor.Execute sampleJob
      ⟨some "signal: killed", Executor.CtxErr.deadlineExceeded, ""⟩).status =
      runStatusTimedOut ∧
    (Executor.Execute sampleJob
      ⟨some "signal: killed", Executor.CtxErr.deadlineExceeded, ""⟩).error =
      some ("job timed out after " ++ Executor.timeoutRepr sampleJob.timeout) :=
  (c5_outcome_classification sampleJob
    ⟨some "signal: killed", Executor.CtxErr.deadlineExceeded, ""⟩).1
    "signal: killed" rfl rfl

/-- C6 counterexample: a job whose env mapping is empty does not get an
empty subprocess environment — `cmd.Env` is only assigned when the job env
is non-empty, so the nil `cmd.Env` makes the subprocess inherit the host
environment, and two different host environments yield two different
subprocess environments for the same job. -/
theorem c6_counterexample :
    Executor.subprocEnv envlessJob ["HOSTVAR=1"] = ["HOSTVAR=1"] ∧
    Executor.subprocEnv envlessJob [] = [] ∧
    Executor.subprocEnv envlessJob ["HOSTVAR=1"] ≠
      Executor.subprocEnv envlessJob [] := by
  decide

/-- C6 (amended): when the job's env mapping is non-empty the subprocess
environment is exactly the job's formatted env pairs, independent of the
host environment; when the job's env is empty, the subprocess inherits the
host environment unchanged. -/
theorem c6_env_isolation (job : Job) (h1 h2 : List String) :
    (job.env.getD [] ≠ [] →
      Executor.subprocEnv job h1 =
        (job.env.getD []).map (fun kv => kv.1 ++ "=" ++ kv.2) ∧
      Executor.subprocEnv job h1 = Executor.subprocEnv job h2) ∧
    (job.env.getD [] = [] → Executor.subprocEnv job h1 = h1) := by
  constructor
  · intro hne
    have hlen : 0 < (job.env.getD []).length := List.length_pos.mpr hne
    constructor <;> simp [Executor.subprocEnv, hlen]
  · intro he
    simp [Executor.subprocEnv, he]

/-- Witness for the amended C6 at a one-entry env mapping and two distinct
host environments. -/
theorem c6_env_isolation_witness :
    Executor.subprocEnv envJob ["H=2"] =
      (envJob.env.getD []).map (fun kv => kv.1 ++ "=" ++ kv.2) ∧
    Executor.subprocEnv envJob ["H=2"] = Executor.subprocEnv envJob [] :=
  (c6_env_isolation envJob ["H=2"] []).1 (by decide)

/-- C3: refuted — the public create operation stores the job without any
next_run_at: the store INSERT does not name the next_run_at column, and the
handler never calls the cron engine to compute one, so the new row of every
successful create has next_run_at NULL even for an active job (while the
repository's own api-reference.md shows next_run_at populated in the 201
response). -/
theorem c3_next_run_not_set (req : Job) (freshId now : Nat) (db : List Job)
    (j : Job) (db2 : List Job)
    (h : Handlers.CreateJob req freshId now db = Except.ok (j, db2)) :
    db2.length = db.length + 1 ∧
    ∀ r ∈ db2, r ∈ db ∨ r.nextRunAt = none := by
  unfold Handlers.CreateJob at h
  split at h
  · cases h
  · split at h
    · cases h
    · split at h
      · cases h
      · split at h
        · cases h
        · cases h
          unfold JobStore.CreateJob
          constructor
          · simp
          · intro r hr
            rcases List.mem_append.mp hr with hop | hop
            · exact Or.inl hop
            · right
              simp at hop
              rw [hop]

/-- Witness for C3: creating a job from a minimal valid request against an
empty store yields exactly one stored row, and that row has no
next_run_at. -/
theorem c3_next_run_not_set_witness :
    [sampleStoredRow].length = ([] : List Job).length + 1 ∧
    ∀ r ∈ [sampleStoredRow], r ∈ ([] : List Job) ∨ r.nextRunAt = none :=
  c3_next_run_not_set sampleReq 7 100 [] sampleRespJob [sampleStoredRow]
    (by decide)

/-- C9: a create request whose max_retries is zero (including an omitted
field, which decodes to zero) is stored with max_retries 3, and no
successful create can store a job with max_retries zero. -/
theorem c9_max_retries_default (req : Job) (freshId now : Nat)
    (db : List Job) (j : Job) (db2 : List Job)
    (h : Handlers.CreateJob req freshId now db = Except.ok (j, db2)) :
    ∃ row, db2 = db ++ [row] ∧
      (req.maxRetries = 0 → j.maxRetries = 3 ∧ row.maxRetries = 3) ∧
      row.maxRetries ≠ 0 := by
  unfold Handlers.CreateJob at h
  split at h
  · cases h
  · split at h
    · cases h
    · split at h
      · cases h
      · split at h
        · cases h
        · cases h
          refine ⟨_, rfl, ?_, ?_⟩
          · intro h0
            constructor
            · by_cases hid : req.id = 0 <;>
                simp [hid, Handlers.applyDefaults, h0]
            · by_cases hid : req.id = 0 <;>
                simp [JobStore.CreateJob, Handlers.applyDefaults, h0, hid]
          · by_cases h0 : req.maxRetries = 0 <;>
              by_cases hid : req.id = 0 <;>
              simp [JobStore.CreateJob, Handlers.applyDefaults, h0, hid]

/-- Witness for C9 at the minimal request (max_retries zero): the stored
row and the echoed job both carry max_retries 3. -/
theorem c9_max_retries_default_witness :
    ∃ row, [sampleStoredRow] = ([] : List Job) ++ [row] ∧
      (sampleReq.maxRetries = 0 →
        sampleRespJob.maxRetries = 3 ∧ row.maxRetries = 3) ∧
      row.maxRetries ≠ 0 :=
  c9_max_retries_default sampleReq 7 100 [] sampleRespJob [sampleStoredRow]
    (by decide)

/-- C10: the job-update path writes only name, description, cron_expr,
command, args, env, status, max_retries, timeout and updated_at — every
stored job's id, created_at and next_run_at are unchanged by a successful
update, so changing a cron_expr does not re-anchor the next firing
instant. -/
theorem c10_update_frame (id : Nat) (req : Job) (now : Nat) (db : List Job)
    (j : Job) (db2 : List Job)
    (h : Handlers.UpdateJob id req now db = Except.ok (j, db2)) :
    db2.map (fun r => (r.id, r.createdAt, r.nextRunAt)) =
      db.map (fun r => (r.id, r.createdAt, r.nextRunAt)) := by
  unfold Handlers.UpdateJob at h
  split at h
  · cases h
  · dsimp only at h
    split at h
    · cases h
    · split at h
      · rename_i dbU heq
        cases h
        exact jobStoreUpdate_frame heq
      · cases h

/-- Witness for C10: updating the sample stored job's name and cron_expr
leaves the (id, created_at, next_run_at) column list of the table
unchanged. -/
theorem c10_update_frame_witness :
    [sampleJobUpdatedRow].map (fun r => (r.id, r.createdAt, r.nextRunAt)) =
      [sampleJob].map (fun r => (r.id, r.createdAt, r.nextRunAt)) :=
  c10_update_frame 1 sampleJobUpdated 200 [sampleJob] sampleJobUpdated
    [sampleJobUpdatedRow] (by decide)



/-- C8: per-job failure isolation on a scheduler tick — over a jobs table
with distinct ids, a due job whose cron expression the engine rejects is
left entirely unchanged (its next_run_at in particular), while every other
due job whose expression parses still has its next_run_at advanced to the
engine's next firing instant; the tick function is total, so the loop never
aborts on a per-job error. -/
theorem c8_per_job_error_isolated (now : Nat) (jobs : List Job)
    (runs : List Run) (hnd : (jobs.map Job.id).Nodup) :
    (∀ j ∈ jobs, parseCron j.cronExpr = none →
      findJob j.id (Scheduler.checkAndScheduleDueJobs now ⟨jobs, runs⟩).jobs =
        some j) ∧
    (∀ k ∈ JobStore.GetActiveJobsDue now jobs, ∀ v,
      ParserAndNext k.cronExpr now = Except.ok v →
      findJob k.id (Scheduler.checkAndScheduleDueJobs now ⟨jobs, runs⟩).jobs =
        some { k with nextRunAt := some v }) := by
  constructor
  · intro j hj hbad
    unfold Scheduler.checkAndScheduleDueJobs
    rw [schedulerFold_preserve (JobStore.GetActiveJobsDue now jobs)
      ⟨jobs, runs⟩ ?_]
    · exact findJob_of_nodup hnd hj
    · intro k hk
      by_cases hid : k.id = j.id
      · have hkin : k ∈ jobs := (List.mem_filter.mp hk).1
        have hkj : k = j := List.inj_on_of_nodup_map hnd hkin hj hid
        rw [hkj]
        exact Or.inr hbad
      · exact Or.inl hid
  · intro k hk v hv
    unfold Scheduler.checkAndScheduleDueJobs
    have hdnd : ((JobStore.GetActiveJobsDue now jobs).map Job.id).Nodup :=
      nodup_ids_filter _ jobs hnd
    exact schedulerFold_applies (JobStore.GetActiveJobsDue now jobs)
      ⟨jobs, runs⟩ k v hdnd hk hv
      (findJob_of_nodup hnd (List.mem_filter.mp hk).1)

set_option maxRecDepth 40000 in
/-- Witness for C8: a tick at instant 0 over a bad-cron job (id 1) and a
valid every-minute job (id 2), both active and due — the bad job's row is
untouched while the good job's next_run_at advances to 60. -/
theorem c8_per_job_error_isolated_witness :
    findJob 1 (Scheduler.checkAndScheduleDueJobs 0
      ⟨[badJob, goodJob], []⟩).jobs = some badJob ∧
    findJob 2 (Scheduler.checkAndScheduleDueJobs 0
      ⟨[badJob, goodJob], []⟩).jobs =
      some { goodJob with nextRunAt := some 60 } := by
  have h := c8_per_job_error_isolated 0 [badJob, goodJob] [] (by decide)
  exact ⟨h.1 badJob (by decide) (by rfl),
    h.2 goodJob (by decide) 60 (by rfl)⟩


end Aster
